import Mathlib

/-!
Verification of the operand-stack engine of the Miden processor
(processor/src/v1/stack/mod.rs), shallowly embedded in Lean 4.

The stack keeps the top 16 positions in a 16-column execution trace and
spills deeper values into an auxiliary overflow list.  Mutators read the
current row (step) and write the next row (step + 1).  The embedding below
translates each Rust method into a Lean function over an explicit state
record; Rust for-loops become structural recursions over the iteration
count, Vec indexing becomes List.getD and List.set (all theorems that
depend on trace contents carry explicit in-bounds hypotheses matching the
panic-freedom conditions of the Rust code), and the two hard panic sites
of shift_left (the unreachable arm on an empty stack, the expect on an
empty overflow list, and the out-of-bounds column index produced when
start_pos is 0) are modelled by an Option result.
-/

/-- Number of trace columns reserved for the top of the stack. -/
def STACK_TOP_SIZE : Nat := 16

/-- Field elements of the trace.  The processor treats them as a black-box
numeric type with a zero constant, equality and copy; we use the integers
modulo the 64-bit Miden prime. -/
abbrev BaseElement : Type := Fin 18446744069414584321

/-- Execution errors surfaced by the stack: an underflow carrying the
operation name and the step at which it occurred. -/
inductive ExecutionError where
  | StackUnderflow : String → Nat → ExecutionError
deriving DecidableEq

/-- The stack state: clock cycle, 16 trace columns, overflow list and
logical depth.  Field order follows the Rust struct. -/
structure Stack where
  step : Nat
  trace : List (List BaseElement)
  overflow : List BaseElement
  depth : Nat
deriving DecidableEq

namespace Stack

/-- Length of the execution trace (the length of column 0, as in the
source). -/
def traceLength (s : Stack) : Nat := (s.trace.getD 0 []).length

/-- Current step accessor. -/
def current_step (s : Stack) : Nat := s.step

/-- Value of column pos at the current step: trace[pos][step]. -/
def get (s : Stack) (pos : Nat) : BaseElement :=
  (s.trace.getD pos []).getD s.step 0

/-- Value of column pos at the next step: trace[pos][step + 1].  This is a
spec-level observation used to state what the mutators wrote. -/
def getNext (s : Stack) (pos : Nat) : BaseElement :=
  (s.trace.getD pos []).getD (s.step + 1) 0

/-- Write a value into column pos at row step + 1:
trace[pos][step + 1] = v. -/
def writeNext (s : Stack) (pos : Nat) (v : BaseElement) : Stack :=
  { s with trace := s.trace.set pos ((s.trace.getD pos []).set (s.step + 1) v) }

/-- Constructor: 16 zero-filled columns of the given length, row 0 of
column i seeded with the i-th initial value when present; step, overflow
and depth start at 0, the empty list and 0. -/
def new (initValues : List BaseElement) (initTraceLength : Nat) : Stack :=
  { step := 0
    trace := (List.range STACK_TOP_SIZE).map (fun i =>
      let column := List.replicate initTraceLength (0 : BaseElement)
      if i < initValues.length then column.set 0 (initValues.getD i 0) else column)
    overflow := []
    depth := 0 }

/-- peek: the top-of-stack value at the current step, or an underflow
error when the stack is empty. -/
def peek (s : Stack) : Except ExecutionError BaseElement :=
  if s.depth = 0 then Except.error (ExecutionError.StackUnderflow ("peek") s.step)
  else Except.ok ((s.trace.getD 0 []).getD s.step 0)

/-- trace_state: the 16 values of the current row. -/
def trace_state (s : Stack) : List BaseElement :=
  (List.range STACK_TOP_SIZE).map (fun i => (s.trace.getD i []).getD s.step 0)

/-- set: writes a value into column pos at the next step. -/
def set (s : Stack) (pos : Nat) (value : BaseElement) : Stack :=
  s.writeNext pos value

/-- The loop body of copy_state: for n iterations starting at column i,
copy trace[i][step] into trace[i][step + 1]. -/
def copyLoop : Stack → Nat → Nat → Stack
  | s, _, 0 => s
  | s, i, n + 1 => copyLoop (s.writeNext i (s.get i)) (i + 1) n

/-- copy_state: copies columns start_pos .. min(depth, 16) - 1 from the
current row to the next row. -/
def copy_state (s : Stack) (start_pos : Nat) : Stack :=
  let end_pos := min s.depth STACK_TOP_SIZE
  copyLoop s start_pos (end_pos - start_pos)

/-- The loop of shift_left: for n iterations starting at column i, copy
trace[i][step] into trace[i - 1][step + 1]. -/
def shiftLeftLoop : Stack → Nat → Nat → Stack
  | s, _, 0 => s
  | s, i, n + 1 => shiftLeftLoop (s.writeNext (i - 1) (s.get i)) (i + 1) n

/-- The loop of shift_right: for n iterations starting at column i, copy
trace[i][step] into trace[i + 1][step + 1]. -/
def shiftRightLoop : Stack → Nat → Nat → Stack
  | s, _, 0 => s
  | s, i, n + 1 => shiftRightLoop (s.writeNext (i + 1) (s.get i)) (i + 1) n

/-- shift_left: slides columns down by one into the next row; with depth
above 16 the bottom of the top window (column 15) is refilled from the
overflow list.  Returns none exactly where the Rust code panics: on an
empty stack (the unreachable arm), when start_pos is 0 with a non-empty
iteration range (the column index would wrap out of bounds), and when the
overflow list is empty in the deep branch (the expect on pop).  Finally
the depth is decremented. -/
def shift_left (s : Stack) (start_pos : Nat) : Option Stack :=
  if s.depth = 0 then none
  else if start_pos = 0 then none
  else if s.depth ≤ 16 then
    let t := shiftLeftLoop s start_pos (s.depth - start_pos)
    some { t with depth := t.depth - 1 }
  else
    let t := shiftLeftLoop s start_pos (STACK_TOP_SIZE - start_pos)
    match t.overflow.getLast? with
    | none => none
    | some v =>
      let t2 := t.writeNext (STACK_TOP_SIZE - 1) v
      some { t2 with overflow := t2.overflow.dropLast, depth := t2.depth - 1 }

/-- shift_right: slides columns up by one into the next row; on an empty
stack only the depth changes, and with depth at least 16 the outgoing
column-15 value of the current row is pushed onto the overflow list.
Finally the depth is incremented. -/
def shift_right (s : Stack) (start_pos : Nat) : Stack :=
  if s.depth = 0 then { s with depth := s.depth + 1 }
  else if s.depth ≤ STACK_TOP_SIZE - 1 then
    let t := shiftRightLoop s start_pos (s.depth - start_pos)
    { t with depth := t.depth + 1 }
  else
    let t := shiftRightLoop s start_pos ((STACK_TOP_SIZE - 1) - start_pos)
    let toOverflow := t.get (STACK_TOP_SIZE - 1)
    { t with overflow := t.overflow ++ [toOverflow], depth := t.depth + 1 }

/-- advance_clock: increments the clock cycle. -/
def advance_clock (s : Stack) : Stack := { s with step := s.step + 1 }

/-- The padding loop of finalize: n times, copy_state 0 followed by
advance_clock. -/
def padLoop : Nat → Stack → Stack
  | 0, s => s
  | n + 1, s => padLoop n ((s.copy_state 0).advance_clock)

/-- finalize: pads the trace by repeating the current row until the
current step reaches the last row.  The Rust loop iterates over the range
from step to trace_length - 1, whose bounds are evaluated once. -/
def finalize (s : Stack) : Stack := padLoop (s.traceLength - 1 - s.step) s

/-- Vec resize: truncate or extend with the given fill value. -/
def vecResize (col : List BaseElement) (newLen : Nat) (v : BaseElement) :
    List BaseElement :=
  if newLen ≤ col.length then col.take newLen
  else col ++ List.replicate (newLen - col.length) v

/-- ensure_trace_capacity: when the next row would fall outside the trace,
double the trace length, resizing every column with zero fill. -/
def ensure_trace_capacity (s : Stack) : Stack :=
  if s.traceLength ≤ s.step + 1 then
    let newLength := s.traceLength * 2
    { s with trace := s.trace.map (fun register => vecResize register newLength 0) }
  else s

/-- check_depth: an underflow error carrying the operation name and the
current step when depth is below the requirement, otherwise success. -/
def check_depth (s : Stack) (req_depth : Nat) (op : String) :
    Except ExecutionError Unit :=
  if s.depth < req_depth then Except.error (ExecutionError.StackUnderflow op s.step)
  else Except.ok ()

/-- Well-formedness of the trace matrix: exactly 16 columns, all of the
common trace length. -/
def Cols (s : Stack) : Prop :=
  s.trace.length = STACK_TOP_SIZE ∧
    ∀ j < STACK_TOP_SIZE, (s.trace.getD j []).length = s.traceLength

instance (s : Stack) : Decidable s.Cols := by
  unfold Cols STACK_TOP_SIZE; infer_instance

/-- The documented overflow invariant: the overflow list length equals
depth - 16 (truncated subtraction, so zero when depth is at most 16). -/
def Inv (s : Stack) : Prop := s.overflow.length = s.depth - 16

instance (s : Stack) : Decidable s.Inv := by
  unfold Inv; infer_instance

/-- A sequence of matched push/pop pairs: for each listed position, a
shift_right immediately reversed by a shift_left at the same position. -/
def pairSeq : List Nat → Stack → Option Stack
  | [], s => some s
  | p :: ps, s => ((s.shift_right p).shift_left p).bind (pairSeq ps)

/-- The concrete scenario stack of the spec: depth 17, overflow list
holding 99, sixteen trace columns of length 4 with column i holding the
value i at step 0. -/
def scenarioStack : Stack :=
  { step := 0
    trace := (List.range 16).map (fun i => [(i : BaseElement), 0, 0, 0])
    overflow := [99]
    depth := 17 }

/-- A depth-15 stack with empty overflow, trace length 2, column i holding
the value i at step 0. -/
def depth15Stack : Stack :=
  { step := 0
    trace := (List.range 16).map (fun i => [(i : BaseElement), 0])
    overflow := []
    depth := 15 }

/-- A depth-16 stack with empty overflow, trace length 2, column i holding
the value i at step 0. -/
def depth16Stack : Stack :=
  { step := 0
    trace := (List.range 16).map (fun i => [(i : BaseElement), 0])
    overflow := []
    depth := 16 }

/-- Seventeen initial values, one more than the 16 trace columns. -/
def seventeenValues : List BaseElement :=
  [1, 2, 3, 4, 5, 6, 7, 8, 9, 10, 11, 12, 13, 14, 15, 16, 17]

end Stack

-- ===============================================================
-- List-level helper lemmas
-- ===============================================================

lemma getD_set_ne {α : Type} (l : List α) (i j : Nat) (a d : α) (h : i ≠ j) :
    (l.set i a).getD j d = l.getD j d := by
  simp [List.getD_eq_getElem?_getD, List.getElem?_set_ne h]

lemma getD_set_eq {α : Type} (l : List α) (i : Nat) (a d : α) :
    (l.set i a).getD i d = if i < l.length then a else d := by
  rw [List.getD_eq_getElem?_getD, List.getElem?_set_self']
  by_cases h : i < l.length
  · rw [List.getElem?_eq_getElem h]
    simp [h]
  · rw [List.getElem?_eq_none (by omega)]
    simp [h]

lemma getD_eq_default_of_le {α : Type} (l : List α) (i : Nat) (d : α)
    (h : l.length ≤ i) : l.getD i d = d := by
  rw [List.getD_eq_getElem?_getD, List.getElem?_eq_none h]
  rfl

namespace Stack

-- ===============================================================
-- writeNext lemmas
-- ===============================================================

lemma writeNext_step (s : Stack) (pos : Nat) (v : BaseElement) :
    (s.writeNext pos v).step = s.step := rfl

lemma writeNext_depth (s : Stack) (pos : Nat) (v : BaseElement) :
    (s.writeNext pos v).depth = s.depth := rfl

lemma writeNext_overflow (s : Stack) (pos : Nat) (v : BaseElement) :
    (s.writeNext pos v).overflow = s.overflow := rfl

lemma writeNext_trace_length (s : Stack) (pos : Nat) (v : BaseElement) :
    (s.writeNext pos v).trace.length = s.trace.length := by
  simp [writeNext]

/-- The column at index j of the written state: unchanged when j differs
from the written position. -/
lemma writeNext_col_ne (s : Stack) (pos : Nat) (v : BaseElement) (j : Nat)
    (h : j ≠ pos) :
    (s.writeNext pos v).trace.getD j [] = s.trace.getD j [] := by
  unfold writeNext
  exact getD_set_ne _ _ _ _ _ (fun he => h he.symm)

lemma writeNext_col_eq (s : Stack) (pos : Nat) (v : BaseElement) :
    (s.writeNext pos v).trace.getD pos [] =
      if pos < s.trace.length then (s.trace.getD pos []).set (s.step + 1) v
      else [] := by
  unfold writeNext
  exact getD_set_eq _ _ _ _

lemma writeNext_colLen (s : Stack) (pos : Nat) (v : BaseElement) (j : Nat) :
    ((s.writeNext pos v).trace.getD j []).length = (s.trace.getD j []).length := by
  by_cases h : j = pos
  · subst h
    rw [writeNext_col_eq]
    by_cases hp : j < s.trace.length
    · simp [hp]
    · have hnil : s.trace.getD j [] = [] :=
        getD_eq_default_of_le _ _ _ (by omega)
      simp only [hp, if_false, hnil]
  · rw [writeNext_col_ne _ _ _ _ h]

lemma writeNext_traceLength (s : Stack) (pos : Nat) (v : BaseElement) :
    (s.writeNext pos v).traceLength = s.traceLength := by
  unfold traceLength
  exact writeNext_colLen s pos v 0

lemma writeNext_Cols (s : Stack) (pos : Nat) (v : BaseElement) (h : s.Cols) :
    (s.writeNext pos v).Cols := by
  obtain ⟨h1, h2⟩ := h
  refine ⟨by rw [writeNext_trace_length]; exact h1, fun j hj => ?_⟩
  rw [writeNext_colLen, writeNext_traceLength]
  exact h2 j hj

/-- Reads at any row other than step + 1 are unaffected by writeNext. -/
lemma writeNext_row_ne (s : Stack) (pos : Nat) (v : BaseElement) (j r : Nat)
    (h : r ≠ s.step + 1) :
    ((s.writeNext pos v).trace.getD j []).getD r 0 =
      (s.trace.getD j []).getD r 0 := by
  by_cases hj : j = pos
  · subst hj
    rw [writeNext_col_eq]
    by_cases hp : j < s.trace.length
    · simp only [hp, if_true]
      exact getD_set_ne _ _ _ _ _ (fun he => h he.symm)
    · have hnil : s.trace.getD j [] = [] :=
        getD_eq_default_of_le _ _ _ (by omega)
      simp only [hp, if_false, hnil]
  · rw [writeNext_col_ne _ _ _ _ hj]

lemma writeNext_get (s : Stack) (pos : Nat) (v : BaseElement) (j : Nat) :
    (s.writeNext pos v).get j = s.get j := by
  unfold get
  rw [writeNext_step]
  exact writeNext_row_ne s pos v j s.step (by omega)

lemma writeNext_getNext_ne (s : Stack) (pos : Nat) (v : BaseElement) (j : Nat)
    (h : j ≠ pos) :
    (s.writeNext pos v).getNext j = s.getNext j := by
  unfold getNext
  rw [writeNext_step, writeNext_col_ne _ _ _ _ h]

lemma writeNext_getNext_eq (s : Stack) (pos : Nat) (v : BaseElement)
    (h1 : pos < s.trace.length) (h2 : s.step + 1 < (s.trace.getD pos []).length) :
    (s.writeNext pos v).getNext pos = v := by
  unfold getNext
  rw [writeNext_step, writeNext_col_eq]
  simp only [h1, if_true]
  rw [getD_set_eq, if_pos h2]

-- ===============================================================
-- Loop lemmas: copyLoop
-- ===============================================================

lemma copyLoop_step : ∀ (n : Nat) (s : Stack) (i : Nat),
    (copyLoop s i n).step = s.step
  | 0, _, _ => rfl
  | n + 1, s, i => copyLoop_step n (s.writeNext i (s.get i)) (i + 1)

lemma copyLoop_depth : ∀ (n : Nat) (s : Stack) (i : Nat),
    (copyLoop s i n).depth = s.depth
  | 0, _, _ => rfl
  | n + 1, s, i => copyLoop_depth n (s.writeNext i (s.get i)) (i + 1)

lemma copyLoop_overflow : ∀ (n : Nat) (s : Stack) (i : Nat),
    (copyLoop s i n).overflow = s.overflow
  | 0, _, _ => rfl
  | n + 1, s, i => copyLoop_overflow n (s.writeNext i (s.get i)) (i + 1)

lemma copyLoop_trace_length : ∀ (n : Nat) (s : Stack) (i : Nat),
    (copyLoop s i n).trace.length = s.trace.length
  | 0, _, _ => rfl
  | n + 1, s, i =>
    (copyLoop_trace_length n _ (i + 1)).trans (writeNext_trace_length s i _)

lemma copyLoop_colLen : ∀ (n : Nat) (s : Stack) (i j : Nat),
    ((copyLoop s i n).trace.getD j []).length = (s.trace.getD j []).length
  | 0, _, _, _ => rfl
  | n + 1, s, i, j =>
    (copyLoop_colLen n _ (i + 1) j).trans (writeNext_colLen s i _ j)

lemma copyLoop_traceLength (n : Nat) (s : Stack) (i : Nat) :
    (copyLoop s i n).traceLength = s.traceLength :=
  copyLoop_colLen n s i 0

lemma copyLoop_Cols (n : Nat) (s : Stack) (i : Nat) (h : s.Cols) :
    (copyLoop s i n).Cols := by
  obtain ⟨h1, h2⟩ := h
  refine ⟨(copyLoop_trace_length n s i).trans h1, fun j hj => ?_⟩
  rw [copyLoop_colLen, copyLoop_traceLength]
  exact h2 j hj

lemma copyLoop_get : ∀ (n : Nat) (s : Stack) (i j : Nat),
    (copyLoop s i n).get j = s.get j
  | 0, _, _, _ => rfl
  | n + 1, s, i, j =>
    (copyLoop_get n _ (i + 1) j).trans (writeNext_get s i _ j)

lemma copyLoop_row_ne : ∀ (n : Nat) (s : Stack) (i j r : Nat), r ≠ s.step + 1 →
    ((copyLoop s i n).trace.getD j []).getD r 0 = (s.trace.getD j []).getD r 0
  | 0, _, _, _, _, _ => rfl
  | n + 1, s, i, j, r, h =>
    (copyLoop_row_ne n (s.writeNext i (s.get i)) (i + 1) j r h).trans
      (writeNext_row_ne s i _ j r h)

lemma copyLoop_getNext : ∀ (n : Nat) (s : Stack) (i j : Nat), s.Cols →
    s.step + 1 < s.traceLength → j < STACK_TOP_SIZE →
    (copyLoop s i n).getNext j =
      if i ≤ j ∧ j < i + n then s.get j else s.getNext j := by
  intro n
  induction n with
  | zero =>
    intro s i j _ _ _
    have hcond : ¬ (i ≤ j ∧ j < i + 0) := by omega
    rw [copyLoop, if_neg hcond]
  | succ n ih =>
    intro s i j hC hs hj
    rw [copyLoop]
    by_cases hin : i < STACK_TOP_SIZE
    · rw [ih _ (i + 1) j (writeNext_Cols _ _ _ hC)
        (by rw [writeNext_step, writeNext_traceLength]; exact hs) hj]
      by_cases hji : j = i
      · subst hji
        have hb1 : j < s.trace.length := by rw [hC.1]; exact hin
        have hb2 : s.step + 1 < (s.trace.getD j []).length := by
          rw [hC.2 j hin]; exact hs
        rw [writeNext_get]
        rw [writeNext_getNext_eq s j _ hb1 hb2]
        have hcond : j ≤ j ∧ j < j + (n + 1) := by omega
        simp only [hcond, if_true]
        split
        · rfl
        · rfl
      · rw [writeNext_get, writeNext_getNext_ne _ _ _ _ hji]
        split
        · split
          · rfl
          · omega
        · split
          · omega
          · rfl
    · -- i is at least 16, so j (below 16) is never written in this branch;
      -- but the if-condition cannot hold either since j < 16 ≤ i.
      rw [ih _ (i + 1) j (writeNext_Cols _ _ _ hC)
        (by rw [writeNext_step, writeNext_traceLength]; exact hs) hj]
      rw [writeNext_get, writeNext_getNext_ne _ _ _ _ (by omega)]
      split
      · omega
      · split
        · omega
        · rfl

-- ===============================================================
-- Loop lemmas: shiftRightLoop
-- ===============================================================

lemma shiftRightLoop_step : ∀ (n : Nat) (s : Stack) (i : Nat),
    (shiftRightLoop s i n).step = s.step
  | 0, _, _ => rfl
  | n + 1, s, i => shiftRightLoop_step n (s.writeNext (i + 1) (s.get i)) (i + 1)

lemma shiftRightLoop_depth : ∀ (n : Nat) (s : Stack) (i : Nat),
    (shiftRightLoop s i n).depth = s.depth
  | 0, _, _ => rfl
  | n + 1, s, i => shiftRightLoop_depth n (s.writeNext (i + 1) (s.get i)) (i + 1)

lemma shiftRightLoop_overflow : ∀ (n : Nat) (s : Stack) (i : Nat),
    (shiftRightLoop s i n).overflow = s.overflow
  | 0, _, _ => rfl
  | n + 1, s, i => shiftRightLoop_overflow n (s.writeNext (i + 1) (s.get i)) (i + 1)

lemma shiftRightLoop_trace_length : ∀ (n : Nat) (s : Stack) (i : Nat),
    (shiftRightLoop s i n).trace.length = s.trace.length
  | 0, _, _ => rfl
  | n + 1, s, i =>
    (shiftRightLoop_trace_length n (s.writeNext (i + 1) (s.get i)) (i + 1)).trans
      (writeNext_trace_length s (i + 1) _)

lemma shiftRightLoop_colLen : ∀ (n : Nat) (s : Stack) (i j : Nat),
    ((shiftRightLoop s i n).trace.getD j []).length = (s.trace.getD j []).length
  | 0, _, _, _ => rfl
  | n + 1, s, i, j =>
    (shiftRightLoop_colLen n (s.writeNext (i + 1) (s.get i)) (i + 1) j).trans
      (writeNext_colLen s (i + 1) _ j)

lemma shiftRightLoop_traceLength (n : Nat) (s : Stack) (i : Nat) :
    (shiftRightLoop s i n).traceLength = s.traceLength :=
  shiftRightLoop_colLen n s i 0

lemma shiftRightLoop_Cols (n : Nat) (s : Stack) (i : Nat) (h : s.Cols) :
    (shiftRightLoop s i n).Cols := by
  obtain ⟨h1, h2⟩ := h
  refine ⟨(shiftRightLoop_trace_length n s i).trans h1, fun j hj => ?_⟩
  rw [shiftRightLoop_colLen, shiftRightLoop_traceLength]
  exact h2 j hj

lemma shiftRightLoop_get : ∀ (n : Nat) (s : Stack) (i j : Nat),
    (shiftRightLoop s i n).get j = s.get j
  | 0, _, _, _ => rfl
  | n + 1, s, i, j =>
    (shiftRightLoop_get n (s.writeNext (i + 1) (s.get i)) (i + 1) j).trans
      (writeNext_get s (i + 1) _ j)

lemma shiftRightLoop_getNext : ∀ (n : Nat) (s : Stack) (i j : Nat), s.Cols →
    s.step + 1 < s.traceLength → j < STACK_TOP_SIZE →
    (shiftRightLoop s i n).getNext j =
      if i < j ∧ j ≤ i + n then s.get (j - 1) else s.getNext j := by
  intro n
  induction n with
  | zero =>
    intro s i j _ _ _
    have hcond : ¬ (i < j ∧ j ≤ i + 0) := by omega
    rw [shiftRightLoop, if_neg hcond]
  | succ n ih =>
    intro s i j hC hs hj
    rw [shiftRightLoop]
    rw [ih (s.writeNext (i + 1) (s.get i)) (i + 1) j (writeNext_Cols _ _ _ hC)
      (by rw [writeNext_step, writeNext_traceLength]; exact hs) hj]
    by_cases hji : j = i + 1
    · subst hji
      have hb1 : i + 1 < s.trace.length := by rw [hC.1]; exact hj
      have hb2 : s.step + 1 < (s.trace.getD (i + 1) []).length := by
        rw [hC.2 (i + 1) hj]; exact hs
      rw [writeNext_get, writeNext_getNext_eq s (i + 1) _ hb1 hb2]
      have hc1 : ¬ (i + 1 < i + 1 ∧ i + 1 ≤ i + 1 + n) := by omega
      have hc2 : i < i + 1 ∧ i + 1 ≤ i + (n + 1) := by omega
      rw [if_neg hc1, if_pos hc2]
      congr 1
    · rw [writeNext_get, writeNext_getNext_ne _ _ _ _ hji]
      split
      · split
        · rfl
        · omega
      · split
        · omega
        · rfl

-- ===============================================================
-- Loop lemmas: shiftLeftLoop
-- ===============================================================

lemma shiftLeftLoop_step : ∀ (n : Nat) (s : Stack) (i : Nat),
    (shiftLeftLoop s i n).step = s.step
  | 0, _, _ => rfl
  | n + 1, s, i => shiftLeftLoop_step n (s.writeNext (i - 1) (s.get i)) (i + 1)

lemma shiftLeftLoop_depth : ∀ (n : Nat) (s : Stack) (i : Nat),
    (shiftLeftLoop s i n).depth = s.depth
  | 0, _, _ => rfl
  | n + 1, s, i => shiftLeftLoop_depth n (s.writeNext (i - 1) (s.get i)) (i + 1)

lemma shiftLeftLoop_overflow : ∀ (n : Nat) (s : Stack) (i : Nat),
    (shiftLeftLoop s i n).overflow = s.overflow
  | 0, _, _ => rfl
  | n + 1, s, i => shiftLeftLoop_overflow n (s.writeNext (i - 1) (s.get i)) (i + 1)

lemma shiftLeftLoop_trace_length : ∀ (n : Nat) (s : Stack) (i : Nat),
    (shiftLeftLoop s i n).trace.length = s.trace.length
  | 0, _, _ => rfl
  | n + 1, s, i =>
    (shiftLeftLoop_trace_length n (s.writeNext (i - 1) (s.get i)) (i + 1)).trans
      (writeNext_trace_length s (i - 1) _)

lemma shiftLeftLoop_colLen : ∀ (n : Nat) (s : Stack) (i j : Nat),
    ((shiftLeftLoop s i n).trace.getD j []).length = (s.trace.getD j []).length
  | 0, _, _, _ => rfl
  | n + 1, s, i, j =>
    (shiftLeftLoop_colLen n (s.writeNext (i - 1) (s.get i)) (i + 1) j).trans
      (writeNext_colLen s (i - 1) _ j)

lemma shiftLeftLoop_traceLength (n : Nat) (s : Stack) (i : Nat) :
    (shiftLeftLoop s i n).traceLength = s.traceLength :=
  shiftLeftLoop_colLen n s i 0

lemma shiftLeftLoop_Cols (n : Nat) (s : Stack) (i : Nat) (h : s.Cols) :
    (shiftLeftLoop s i n).Cols := by
  obtain ⟨h1, h2⟩ := h
  refine ⟨(shiftLeftLoop_trace_length n s i).trans h1, fun j hj => ?_⟩
  rw [shiftLeftLoop_colLen, shiftLeftLoop_traceLength]
  exact h2 j hj

lemma shiftLeftLoop_get : ∀ (n : Nat) (s : Stack) (i j : Nat),
    (shiftLeftLoop s i n).get j = s.get j
  | 0, _, _, _ => rfl
  | n + 1, s, i, j =>
    (shiftLeftLoop_get n (s.writeNext (i - 1) (s.get i)) (i + 1) j).trans
      (writeNext_get s (i - 1) _ j)

lemma shiftLeftLoop_getNext : ∀ (n : Nat) (s : Stack) (i j : Nat), s.Cols →
    s.step + 1 < s.traceLength → 1 ≤ i → j < STACK_TOP_SIZE →
    (shiftLeftLoop s i n).getNext j =
      if i ≤ j + 1 ∧ j + 1 < i + n then s.get (j + 1) else s.getNext j := by
  intro n
  induction n with
  | zero =>
    intro s i j _ _ _ _
    have hcond : ¬ (i ≤ j + 1 ∧ j + 1 < i + 0) := by omega
    rw [shiftLeftLoop, if_neg hcond]
  | succ n ih =>
    intro s i j hC hs hi hj
    rw [shiftLeftLoop]
    rw [ih (s.writeNext (i - 1) (s.get i)) (i + 1) j (writeNext_Cols _ _ _ hC)
      (by rw [writeNext_step, writeNext_traceLength]; exact hs) (by omega) hj]
    by_cases hji : j = i - 1
    · subst hji
      have hb1 : i - 1 < s.trace.length := by rw [hC.1]; omega
      have hb2 : s.step + 1 < (s.trace.getD (i - 1) []).length := by
        rw [hC.2 (i - 1) (by omega)]; exact hs
      rw [writeNext_get, writeNext_getNext_eq s (i - 1) _ hb1 hb2]
      have hc1 : ¬ (i + 1 ≤ (i - 1) + 1 ∧ (i - 1) + 1 < i + 1 + n) := by omega
      have hc2 : i ≤ (i - 1) + 1 ∧ (i - 1) + 1 < i + (n + 1) := by omega
      rw [if_neg hc1, if_pos hc2]
      congr 1
      omega
    · rw [writeNext_get, writeNext_getNext_ne _ _ _ _ hji]
      split
      · split
        · rfl
        · omega
      · split
        · omega
        · rfl

-- ===============================================================
-- copy_state lemmas
-- ===============================================================

lemma copy_state_def (s : Stack) (p : Nat) :
    s.copy_state p = copyLoop s p (min s.depth STACK_TOP_SIZE - p) := rfl

lemma copy_state_step (s : Stack) (p : Nat) : (s.copy_state p).step = s.step :=
  copyLoop_step _ _ _

lemma copy_state_depth (s : Stack) (p : Nat) : (s.copy_state p).depth = s.depth :=
  copyLoop_depth _ _ _

lemma copy_state_overflow (s : Stack) (p : Nat) :
    (s.copy_state p).overflow = s.overflow :=
  copyLoop_overflow _ _ _

lemma copy_state_traceLength (s : Stack) (p : Nat) :
    (s.copy_state p).traceLength = s.traceLength :=
  copyLoop_traceLength _ _ _

lemma copy_state_Cols (s : Stack) (p : Nat) (h : s.Cols) : (s.copy_state p).Cols :=
  copyLoop_Cols _ _ _ h

lemma copy_state_get (s : Stack) (p j : Nat) : (s.copy_state p).get j = s.get j :=
  copyLoop_get _ _ _ _

lemma copy_state_row_ne (s : Stack) (p j r : Nat) (h : r ≠ s.step + 1) :
    ((s.copy_state p).trace.getD j []).getD r 0 = (s.trace.getD j []).getD r 0 :=
  copyLoop_row_ne _ _ _ _ _ h

lemma copy_state_getNext (s : Stack) (p j : Nat) (hC : s.Cols)
    (hs : s.step + 1 < s.traceLength) (hj : j < STACK_TOP_SIZE) :
    (s.copy_state p).getNext j =
      if p ≤ j ∧ j < min s.depth STACK_TOP_SIZE then s.get j else s.getNext j := by
  rw [copy_state_def, copyLoop_getNext _ s p j hC hs hj]
  split
  · split
    · rfl
    · omega
  · split
    · omega
    · rfl

-- ===============================================================
-- advance_clock lemmas
-- ===============================================================

lemma advance_clock_step (s : Stack) : s.advance_clock.step = s.step + 1 := rfl

lemma advance_clock_depth (s : Stack) : s.advance_clock.depth = s.depth := rfl

lemma advance_clock_overflow (s : Stack) :
    s.advance_clock.overflow = s.overflow := rfl

lemma advance_clock_trace (s : Stack) : s.advance_clock.trace = s.trace := rfl

lemma advance_clock_traceLength (s : Stack) :
    s.advance_clock.traceLength = s.traceLength := rfl

lemma advance_clock_Cols (s : Stack) (h : s.Cols) : s.advance_clock.Cols := h

-- ===============================================================
-- shift_right lemmas
-- ===============================================================

lemma shift_right_depth (s : Stack) (p : Nat) :
    (s.shift_right p).depth = s.depth + 1 := by
  unfold shift_right
  split
  · rfl
  · split
    · simp only
      rw [shiftRightLoop_depth]
    · simp only
      rw [shiftRightLoop_depth]

lemma shift_right_step (s : Stack) (p : Nat) :
    (s.shift_right p).step = s.step := by
  unfold shift_right
  split
  · rfl
  · split
    · simp only
      rw [shiftRightLoop_step]
    · simp only
      rw [shiftRightLoop_step]

lemma shift_right_overflow (s : Stack) (p : Nat) :
    (s.shift_right p).overflow =
      if STACK_TOP_SIZE ≤ s.depth then s.overflow ++ [s.get (STACK_TOP_SIZE - 1)]
      else s.overflow := by
  unfold shift_right
  split
  · rw [if_neg (by unfold STACK_TOP_SIZE; omega)]
  · split
    · rw [if_neg (by unfold STACK_TOP_SIZE at *; omega)]
      simp only
      rw [shiftRightLoop_overflow]
    · rw [if_pos (by unfold STACK_TOP_SIZE at *; omega)]
      simp only
      rw [shiftRightLoop_overflow, shiftRightLoop_get]

lemma shift_right_get (s : Stack) (p j : Nat) :
    (s.shift_right p).get j = s.get j := by
  unfold shift_right
  split
  · rfl
  · split
    · simp only
      rw [show ∀ t : Stack, ∀ d, ({ t with depth := d } : Stack).get j = t.get j
          from fun _ _ => rfl]
      rw [shiftRightLoop_get]
    · simp only
      rw [show ∀ t : Stack, ∀ o d, ({ t with overflow := o, depth := d } : Stack).get j
            = t.get j from fun _ _ _ => rfl]
      rw [shiftRightLoop_get]

lemma shift_right_traceLength (s : Stack) (p : Nat) :
    (s.shift_right p).traceLength = s.traceLength := by
  unfold shift_right
  split
  · rfl
  · split
    · simp only
      rw [show ∀ t : Stack, ∀ d, ({ t with depth := d } : Stack).traceLength
            = t.traceLength from fun _ _ => rfl]
      rw [shiftRightLoop_traceLength]
    · simp only
      rw [show ∀ t : Stack, ∀ o d, ({ t with overflow := o, depth := d } : Stack).traceLength
            = t.traceLength from fun _ _ _ => rfl]
      rw [shiftRightLoop_traceLength]

lemma shift_right_Cols (s : Stack) (p : Nat) (h : s.Cols) :
    (s.shift_right p).Cols := by
  unfold shift_right
  split
  · exact h
  · split
    · exact shiftRightLoop_Cols _ _ _ h
    · exact shiftRightLoop_Cols _ _ _ h

/-- In the deep branch (depth at least 16), the slide-up effect of
shift_right on the next row. -/
lemma shift_right_getNext_deep (s : Stack) (p j : Nat) (hC : s.Cols)
    (hs : s.step + 1 < s.traceLength) (hd : STACK_TOP_SIZE ≤ s.depth)
    (hj : j < STACK_TOP_SIZE) :
    (s.shift_right p).getNext j =
      if p < j ∧ j ≤ STACK_TOP_SIZE - 1 then s.get (j - 1) else s.getNext j := by
  unfold shift_right
  rw [if_neg (by unfold STACK_TOP_SIZE at *; omega),
    if_neg (by unfold STACK_TOP_SIZE at *; omega)]
  simp only
  rw [show ∀ t : Stack, ∀ o d, ({ t with overflow := o, depth := d } : Stack).getNext j
        = t.getNext j from fun _ _ _ => rfl]
  rw [shiftRightLoop_getNext _ s p j hC hs hj]
  unfold STACK_TOP_SIZE
  split
  · split
    · rfl
    · omega
  · split
    · omega
    · rfl

-- ===============================================================
-- shift_left lemmas
-- ===============================================================

lemma shift_left_eq_shallow (s : Stack) (p : Nat) (hd : ¬ s.depth = 0)
    (hp : ¬ p = 0) (hle : s.depth ≤ 16) :
    s.shift_left p =
      some { shiftLeftLoop s p (s.depth - p) with depth := s.depth - 1 } := by
  unfold shift_left
  rw [if_neg hd, if_neg hp, if_pos hle]
  simp only
  rw [shiftLeftLoop_depth]

lemma shift_left_eq_deep (s : Stack) (p : Nat) (v : BaseElement)
    (hd : ¬ s.depth = 0) (hp : ¬ p = 0) (hgt : ¬ s.depth ≤ 16)
    (hov : s.overflow.getLast? = some v) :
    s.shift_left p =
      some { (shiftLeftLoop s p (STACK_TOP_SIZE - p)).writeNext (STACK_TOP_SIZE - 1) v with
               overflow := s.overflow.dropLast, depth := s.depth - 1 } := by
  unfold shift_left
  rw [if_neg hd, if_neg hp, if_neg hgt]
  simp only
  have hov2 : (shiftLeftLoop s p (STACK_TOP_SIZE - p)).overflow.getLast? = some v := by
    rw [shiftLeftLoop_overflow]
    exact hov
  rw [hov2]
  simp only
  rw [writeNext_overflow, shiftLeftLoop_overflow, writeNext_depth,
    shiftLeftLoop_depth]

/-- Preservation of the overflow invariant by shift_left, under its
contract (non-empty stack, positive start position). -/
lemma shift_left_inv (s : Stack) (p : Nat) (hI : s.Inv) (hd : 0 < s.depth)
    (hp : 1 ≤ p) :
    ∃ t, s.shift_left p = some t ∧ t.Inv ∧ t.depth = s.depth - 1 := by
  by_cases hle : s.depth ≤ 16
  · refine ⟨_, shift_left_eq_shallow s p (by omega) (by omega) hle, ?_, rfl⟩
    show (shiftLeftLoop s p (s.depth - p)).overflow.length = s.depth - 1 - 16
    rw [shiftLeftLoop_overflow]
    unfold Inv at hI
    omega
  · have hne : s.overflow ≠ [] := by
      intro hnil
      unfold Inv at hI
      rw [hnil] at hI
      simp at hI
      omega
    obtain ⟨v, hv⟩ : ∃ v, s.overflow.getLast? = some v := by
      cases hlast : s.overflow.getLast? with
      | none => exact absurd (List.getLast?_eq_none_iff.mp hlast) hne
      | some v => exact ⟨v, rfl⟩
    refine ⟨_, shift_left_eq_deep s p v (by omega) (by omega) hle hv, ?_, rfl⟩
    show s.overflow.dropLast.length = s.depth - 1 - 16
    rw [List.length_dropLast]
    unfold Inv at hI
    omega

-- ===============================================================
-- Matched shift_right/shift_left round trip
-- ===============================================================

/-- One matched push/pop pair: a shift_right immediately reversed by a
shift_left at the same position.  The depth, the overflow list, the step
and every current-row column value come back to their pre-pair values. -/
lemma pair_roundtrip (s : Stack) (p : Nat) (hp : 1 ≤ p) :
    ∃ t, (s.shift_right p).shift_left p = some t ∧ t.step = s.step ∧
      t.depth = s.depth ∧ t.overflow = s.overflow ∧ (∀ j, t.get j = s.get j) := by
  have hud : (s.shift_right p).depth = s.depth + 1 := shift_right_depth s p
  have hus : (s.shift_right p).step = s.step := shift_right_step s p
  by_cases hdeep : STACK_TOP_SIZE ≤ s.depth
  · have huo : (s.shift_right p).overflow =
        s.overflow ++ [s.get (STACK_TOP_SIZE - 1)] := by
      rw [shift_right_overflow, if_pos hdeep]
    have hlast : (s.shift_right p).overflow.getLast? =
        some (s.get (STACK_TOP_SIZE - 1)) := by
      rw [huo]
      simp
    refine ⟨_, shift_left_eq_deep (s.shift_right p) p (s.get (STACK_TOP_SIZE - 1))
      (by omega) (by omega) (by unfold STACK_TOP_SIZE at hdeep; omega) hlast,
      ?_, ?_, ?_, ?_⟩
    · show ((shiftLeftLoop (s.shift_right p) p (STACK_TOP_SIZE - p)).writeNext
        (STACK_TOP_SIZE - 1) (s.get (STACK_TOP_SIZE - 1))).step = s.step
      rw [writeNext_step, shiftLeftLoop_step, hus]
    · show (s.shift_right p).depth - 1 = s.depth
      omega
    · show (s.shift_right p).overflow.dropLast = s.overflow
      rw [huo]
      simp
    · intro j
      show ((shiftLeftLoop (s.shift_right p) p (STACK_TOP_SIZE - p)).writeNext
        (STACK_TOP_SIZE - 1) (s.get (STACK_TOP_SIZE - 1))).get j = s.get j
      rw [writeNext_get, shiftLeftLoop_get, shift_right_get]
  · have huo : (s.shift_right p).overflow = s.overflow := by
      rw [shift_right_overflow, if_neg hdeep]
    refine ⟨_, shift_left_eq_shallow (s.shift_right p) p (by omega) (by omega)
      (by unfold STACK_TOP_SIZE at hdeep; omega), ?_, ?_, ?_, ?_⟩
    · show (shiftLeftLoop (s.shift_right p) p _).step = s.step
      rw [shiftLeftLoop_step, hus]
    · show (s.shift_right p).depth - 1 = s.depth
      omega
    · show (shiftLeftLoop (s.shift_right p) p _).overflow = s.overflow
      rw [shiftLeftLoop_overflow, huo]
    · intro j
      show (shiftLeftLoop (s.shift_right p) p _).get j = s.get j
      rw [shiftLeftLoop_get, shift_right_get]

-- ===============================================================
-- padLoop and finalize lemmas
-- ===============================================================

lemma padLoop_step : ∀ (n : Nat) (s : Stack), (padLoop n s).step = s.step + n
  | 0, _ => rfl
  | n + 1, s => by
    rw [padLoop, padLoop_step n]
    rw [advance_clock_step, copy_state_step]
    omega

lemma padLoop_depth : ∀ (n : Nat) (s : Stack), (padLoop n s).depth = s.depth
  | 0, _ => rfl
  | n + 1, s => by
    rw [padLoop, padLoop_depth n, advance_clock_depth, copy_state_depth]

lemma padLoop_overflow : ∀ (n : Nat) (s : Stack),
    (padLoop n s).overflow = s.overflow
  | 0, _ => rfl
  | n + 1, s => by
    rw [padLoop, padLoop_overflow n, advance_clock_overflow, copy_state_overflow]

lemma padLoop_traceLength : ∀ (n : Nat) (s : Stack),
    (padLoop n s).traceLength = s.traceLength
  | 0, _ => rfl
  | n + 1, s => by
    rw [padLoop, padLoop_traceLength n, advance_clock_traceLength,
      copy_state_traceLength]

lemma finalize_step (s : Stack) (h : s.step < s.traceLength) :
    s.finalize.step = s.traceLength - 1 := by
  rw [finalize, padLoop_step]
  omega

lemma finalize_eq_self (s : Stack) (h : s.step = s.traceLength - 1) :
    s.finalize = s := by
  have hn : s.traceLength - 1 - s.step = 0 := by omega
  rw [finalize, hn]
  rfl

lemma finalize_idem (s : Stack) : s.finalize.finalize = s.finalize := by
  have h1 : s.finalize.traceLength = s.traceLength := by
    rw [finalize, padLoop_traceLength]
  have h2 : s.finalize.step = s.step + (s.traceLength - 1 - s.step) := by
    rw [finalize, padLoop_step]
  have hn : s.finalize.traceLength - 1 - s.finalize.step = 0 := by
    rw [h1, h2]
    omega
  rw [show s.finalize.finalize = padLoop (s.finalize.traceLength - 1 - s.finalize.step)
        s.finalize from rfl, hn]
  rfl

lemma padLoop_rows : ∀ (n : Nat) (s : Stack), s.Cols → s.step + n < s.traceLength →
    (∀ j r, r ≤ s.step →
      ((padLoop n s).trace.getD j []).getD r 0 = (s.trace.getD j []).getD r 0) ∧
    (∀ i, i < min s.depth STACK_TOP_SIZE → ∀ r, s.step ≤ r → r ≤ s.step + n →
      ((padLoop n s).trace.getD i []).getD r 0 = s.get i) := by
  intro n
  induction n with
  | zero =>
    intro s _ _
    refine ⟨fun j r _ => rfl, fun i _ r hr1 hr2 => ?_⟩
    have : r = s.step := by omega
    rw [this]
    rfl
  | succ n ih =>
    intro s hC hs
    have hs1 : s.step + 1 < s.traceLength := by omega
    have hC1 : ((s.copy_state 0).advance_clock).Cols :=
      advance_clock_Cols _ (copy_state_Cols _ _ hC)
    have hstep1 : ((s.copy_state 0).advance_clock).step = s.step + 1 := by
      rw [advance_clock_step, copy_state_step]
    have hTL1 : ((s.copy_state 0).advance_clock).traceLength = s.traceLength := by
      rw [advance_clock_traceLength, copy_state_traceLength]
    have hbound : ((s.copy_state 0).advance_clock).step + n <
        ((s.copy_state 0).advance_clock).traceLength := by
      rw [hstep1, hTL1]
      omega
    obtain ⟨ihA, ihB⟩ := ih ((s.copy_state 0).advance_clock) hC1 hbound
    have hdep1 : ((s.copy_state 0).advance_clock).depth = s.depth := by
      rw [advance_clock_depth, copy_state_depth]
    constructor
    · intro j r hr
      rw [padLoop]
      rw [ihA j r (by rw [hstep1]; omega)]
      rw [advance_clock_trace]
      exact copy_state_row_ne s 0 j r (by omega)
    · intro i hi r hr1 hr2
      rw [padLoop]
      by_cases hrs : r ≤ s.step
      · have hreq : r = s.step := by omega
        rw [ihA i r (by rw [hstep1]; omega), advance_clock_trace,
          copy_state_row_ne s 0 i r (by omega), hreq]
        rfl
      · have hcopy : ((s.copy_state 0).advance_clock).get i = s.get i := by
          show (((s.copy_state 0).advance_clock).trace.getD i []).getD
            ((s.copy_state 0).advance_clock).step 0 = s.get i
          rw [hstep1, advance_clock_trace]
          have : (s.copy_state 0).getNext i =
              if 0 ≤ i ∧ i < min s.depth STACK_TOP_SIZE then s.get i
              else s.getNext i :=
            copy_state_getNext s 0 i hC hs1 (by omega)
          rw [if_pos (by omega)] at this
          rw [show ((s.copy_state 0).trace.getD i []).getD (s.step + 1) 0 =
              (s.copy_state 0).getNext i by rw [getNext, copy_state_step]]
          exact this
        rw [ihB i (by rw [hdep1]; omega) r (by rw [hstep1]; omega)
          (by rw [hstep1]; omega), hcopy]

-- ===============================================================
-- Sequences of matched pairs
-- ===============================================================

lemma pairSeq_roundtrip : ∀ (ps : List Nat) (s : Stack), (∀ p ∈ ps, 1 ≤ p) →
    ∃ t, pairSeq ps s = some t ∧ t.step = s.step ∧ t.depth = s.depth ∧
      t.overflow = s.overflow ∧ ∀ j, t.get j = s.get j := by
  intro ps
  induction ps with
  | nil => exact fun s _ => ⟨s, rfl, rfl, rfl, rfl, fun _ => rfl⟩
  | cons p ps ih =>
    intro s hps
    obtain ⟨u, hu, hustep, hudepth, huoverflow, huget⟩ :=
      pair_roundtrip s p (hps p (List.mem_cons_self p ps))
    obtain ⟨t, ht, htstep, htdepth, htoverflow, htget⟩ :=
      ih u (fun q hq => hps q (List.mem_cons_of_mem p hq))
    refine ⟨t, ?_, ?_, ?_, ?_, ?_⟩
    · rw [pairSeq, hu]
      exact ht
    · rw [htstep, hustep]
    · rw [htdepth, hudepth]
    · rw [htoverflow, huoverflow]
    · intro j
      rw [htget j, huget j]

-- ===============================================================
-- Constructor lemmas
-- ===============================================================

lemma new_col (iv : List BaseElement) (n i : Nat) (hi : i < STACK_TOP_SIZE) :
    (Stack.new iv n).trace.getD i [] =
      if i < iv.length then (List.replicate n (0 : BaseElement)).set 0 (iv.getD i 0)
      else List.replicate n (0 : BaseElement) := by
  unfold new
  simp only
  rw [List.getD_eq_getElem?_getD, List.getElem?_map, List.getElem?_range hi]
  rfl

lemma new_colLen (iv : List BaseElement) (n i : Nat) (hi : i < STACK_TOP_SIZE) :
    ((Stack.new iv n).trace.getD i []).length = n := by
  rw [new_col iv n i hi]
  split
  · rw [List.length_set, List.length_replicate]
  · rw [List.length_replicate]

lemma new_traceLength (iv : List BaseElement) (n : Nat) :
    (Stack.new iv n).traceLength = n :=
  new_colLen iv n 0 (by unfold STACK_TOP_SIZE; omega)

lemma new_trace_length (iv : List BaseElement) (n : Nat) :
    (Stack.new iv n).trace.length = STACK_TOP_SIZE := by
  unfold new
  simp only
  rw [List.length_map, List.length_range]

lemma new_Cols (iv : List BaseElement) (n : Nat) : (Stack.new iv n).Cols :=
  ⟨new_trace_length iv n, fun j hj => by
    rw [new_colLen iv n j hj, new_traceLength]⟩

-- ===============================================================
-- Resize helpers
-- ===============================================================

lemma vecResize_double (col : List BaseElement) (L : Nat) (hl : col.length = L) :
    vecResize col (L * 2) 0 = col ++ List.replicate L (0 : BaseElement) := by
  unfold vecResize
  by_cases hL : L = 0
  · subst hL
    have : col = [] := List.length_eq_zero.mp hl
    subst this
    simp
  · rw [if_neg (by omega)]
    rw [hl, show L * 2 - L = L from by omega]

lemma getD_append_left {α : Type} (l l' : List α) (r : Nat) (d : α)
    (h : r < l.length) : (l ++ l').getD r d = l.getD r d := by
  rw [List.getD_eq_getElem?_getD, List.getD_eq_getElem?_getD,
    List.getElem?_append, if_pos h]

lemma getD_append_replicate_zero (l : List BaseElement) (m r : Nat)
    (h : l.length ≤ r) :
    (l ++ List.replicate m (0 : BaseElement)).getD r 0 = 0 := by
  rw [List.getD_eq_getElem?_getD, List.getElem?_append, if_neg (by omega),
    List.getElem?_replicate]
  split
  · rfl
  · rfl

lemma getD_take {α : Type} (l : List α) (m i : Nat) (d : α) (h : i < m) :
    (l.take m).getD i d = l.getD i d := by
  rw [List.getD_eq_getElem?_getD, List.getD_eq_getElem?_getD,
    List.getElem?_take, if_pos h]

lemma getD_map_of_lt {α β : Type} (f : α → β) (l : List α) (i : Nat) (d : β)
    (d2 : α) (h : i < l.length) : (l.map f).getD i d = f (l.getD i d2) := by
  rw [List.getD_eq_getElem?_getD, List.getD_eq_getElem?_getD, List.getElem?_map,
    List.getElem?_eq_getElem h]
  rfl

-- ===============================================================
-- Claim theorems
-- ===============================================================

/-- C1: on a stack with depth 17, overflow list holding 99 and the 16 top
trace columns holding the value i in column i at step 0, shift_left 1
succeeds and yields, at step 1, column 0 = 1 through column 14 = 15 and
column 15 = 99, with an empty overflow list and depth 16. -/
theorem c1_shift_left_concrete_scenario :
    (scenarioStack.shift_left 1).map
        (fun t => ((List.range 16).map t.getNext, t.overflow, t.depth)) =
      some ([1, 2, 3, 4, 5, 6, 7, 8, 9, 10, 11, 12, 13, 14, 15, 99], [], 16) := by
  decide

/-- C2 counterexample: on a stack of depth 15 (which satisfies the
claimed precondition depth at least 15, with start position 1 at most the
depth), shift_right does not push the column-15 value onto the overflow
list: the overflow list stays empty.  The claimed universal statement is
therefore false at this input. -/
theorem c2_counterexample :
    15 ≤ depth15Stack.depth ∧ 1 ≤ depth15Stack.depth ∧
      ¬ ((depth15Stack.shift_right 1).overflow =
          depth15Stack.overflow ++ [depth15Stack.get 15]) := by
  decide

/-- C2 (amended): for every stack with 16 columns of the common trace
length, room for the next row, depth at least 16 (rather than 15) and
start_pos at most the depth, shift_right copies column i at the current
step to column i + 1 at the next step for i from start_pos through 14,
and pushes the value previously at column 15 (current step) onto the
overflow list. -/
theorem c2_shift_right_spill (s : Stack) (p : Nat) (hC : s.Cols)
    (hs : s.step + 1 < s.traceLength) (hd : 16 ≤ s.depth) (hp : p ≤ s.depth) :
    (∀ i, p ≤ i → i ≤ 14 → (s.shift_right p).getNext (i + 1) = s.get i) ∧
    (s.shift_right p).overflow = s.overflow ++ [s.get 15] := by
  have hd16 : STACK_TOP_SIZE ≤ s.depth := by unfold STACK_TOP_SIZE; omega
  constructor
  · intro i hpi hi14
    rw [shift_right_getNext_deep s p (i + 1) hC hs hd16
      (by unfold STACK_TOP_SIZE; omega)]
    rw [if_pos (by unfold STACK_TOP_SIZE; omega)]
    congr 1
  · rw [shift_right_overflow, if_pos hd16]
    rfl

/-- C5: construction always sets the depth to 0, regardless of the
supplied initial values; consequently peek on a freshly constructed stack
always reports a stack underflow naming peek at step 0, even though the
initial values are written into row 0 of the corresponding columns. -/
theorem c5_construction_depth_zero :
    (∀ (iv : List BaseElement) (n : Nat), (Stack.new iv n).depth = 0) ∧
    (∀ (iv : List BaseElement) (n : Nat),
      (Stack.new iv n).peek =
        Except.error (ExecutionError.StackUnderflow ("peek") 0)) ∧
    (∀ (iv : List BaseElement) (n : Nat), 0 < n → ∀ i, i < 16 → i < iv.length →
      ((Stack.new iv n).trace.getD i []).getD 0 0 = iv.getD i 0) := by
  refine ⟨fun _ _ => rfl, fun _ _ => rfl, fun iv n hn i hi16 hilen => ?_⟩
  rw [new_col iv n i (by unfold STACK_TOP_SIZE; omega), if_pos hilen,
    getD_set_eq, if_pos (by rw [List.length_replicate]; omega)]

/-- C5 witness: the hypothesis-carrying third component at initial values
[7], trace length 2, column 0. -/
theorem c5_construction_depth_zero_witness :
    ((Stack.new [7] 2).trace.getD 0 []).getD 0 0 =
      ([7] : List BaseElement).getD 0 0 :=
  c5_construction_depth_zero.2.2 [7] 2 (by decide) 0 (by decide) (by decide)

/-- C7: peek returns the underflow error naming peek and the current step
exactly when depth is 0 and otherwise returns the column-0 value of the
current row, and check_depth returns the underflow error naming the
operation and the current step exactly when depth is below the required
depth and otherwise succeeds.  Both are pure functions of the state in
this embedding, so neither modifies any state. -/
theorem c7_underflow_errors (s : Stack) :
    ((s.peek = Except.error (ExecutionError.StackUnderflow ("peek") s.step)) ↔
      s.depth = 0) ∧
    (¬ s.depth = 0 → s.peek = Except.ok (s.get 0)) ∧
    (∀ (req : Nat) (op : String),
      ((s.check_depth req op =
          Except.error (ExecutionError.StackUnderflow op s.step)) ↔
        s.depth < req) ∧
      (¬ s.depth < req → s.check_depth req op = Except.ok ())) := by
  refine ⟨?_, ?_, fun req op => ⟨?_, ?_⟩⟩
  · unfold peek
    by_cases hd : s.depth = 0
    · simp [hd]
    · simp [hd]
  · intro hd
    unfold peek
    rw [if_neg hd]
    rfl
  · unfold check_depth
    by_cases hd : s.depth < req
    · simp [hd]
    · simp [hd]
  · intro hd
    unfold check_depth
    rw [if_neg hd]

/-- C7 witness: the characterization applied to a concrete empty stack
and a concrete depth check. -/
theorem c7_underflow_errors_witness :
    (Stack.new [] 2).peek =
        Except.error (ExecutionError.StackUnderflow ("peek") 0) ∧
    (depth15Stack.check_depth 3 ("foo") = Except.ok ()) :=
  ⟨(c7_underflow_errors (Stack.new [] 2)).1.mpr (by decide),
   ((c7_underflow_errors depth15Stack).2.2 3 ("foo")).2 (by decide)⟩

/-- C9: finalize is idempotent: when the current step already equals
trace length - 1 it performs zero padding iterations and returns the
state unchanged, and a repeated finalize never changes the result of a
first finalize. -/
theorem c9_finalize_idempotent (s : Stack) :
    (s.step = s.traceLength - 1 → s.finalize = s) ∧
    s.finalize.finalize = s.finalize :=
  ⟨finalize_eq_self s, finalize_idem s⟩

/-- C9 witness: a freshly constructed length-1 trace is already finalized
and finalize is a fixed point on a length-2 trace after one call. -/
theorem c9_finalize_idempotent_witness :
    (Stack.new [] 1).finalize = Stack.new [] 1 ∧
    (Stack.new [] 2).finalize.finalize = (Stack.new [] 2).finalize :=
  ⟨(c9_finalize_idempotent (Stack.new [] 1)).1 (by decide),
   (c9_finalize_idempotent (Stack.new [] 2)).2⟩

/-- C2 witness: the spill characterization applied to the concrete
depth-17 scenario stack with start position 1. -/
theorem c2_shift_right_spill_witness :
    (scenarioStack.shift_right 1).getNext 2 = scenarioStack.get 1 ∧
    (scenarioStack.shift_right 1).overflow =
      scenarioStack.overflow ++ [scenarioStack.get 15] :=
  ⟨(c2_shift_right_spill scenarioStack 1 (by decide) (by decide) (by decide)
      (by decide)).1 1 (by decide) (by decide),
   (c2_shift_right_spill scenarioStack 1 (by decide) (by decide) (by decide)
      (by decide)).2⟩

/-- C3: the overflow invariant (overflow length equals depth - 16 in
truncated subtraction, hence empty overflow for depth at most 16) holds
after construction and is preserved by set, copy_state, shift_left under
its contract (non-empty stack, positive start position), shift_right,
advance_clock, ensure_trace_capacity and finalize. -/
theorem c3_overflow_invariant :
    (∀ (iv : List BaseElement) (n : Nat), (Stack.new iv n).Inv) ∧
    (∀ (s : Stack) (p : Nat) (v : BaseElement), s.Inv → (s.set p v).Inv) ∧
    (∀ (s : Stack) (p : Nat), s.Inv → (s.copy_state p).Inv) ∧
    (∀ (s : Stack) (p : Nat), s.Inv → 0 < s.depth → 1 ≤ p →
      ∃ t, s.shift_left p = some t ∧ t.Inv) ∧
    (∀ (s : Stack) (p : Nat), s.Inv → (s.shift_right p).Inv) ∧
    (∀ s : Stack, s.Inv → s.advance_clock.Inv) ∧
    (∀ s : Stack, s.Inv → s.ensure_trace_capacity.Inv) ∧
    (∀ s : Stack, s.Inv → s.finalize.Inv) := by
  refine ⟨fun iv n => rfl, fun s p v h => h, ?_, ?_, ?_, fun s h => h, ?_, ?_⟩
  · intro s p h
    unfold Inv at *
    rw [copy_state_overflow, copy_state_depth]
    exact h
  · intro s p h hd hp
    obtain ⟨t, ht, hI, _⟩ := shift_left_inv s p h hd hp
    exact ⟨t, ht, hI⟩
  · intro s p h
    unfold Inv at *
    rw [shift_right_depth, shift_right_overflow]
    by_cases hd : STACK_TOP_SIZE ≤ s.depth
    · rw [if_pos hd, List.length_append]
      unfold STACK_TOP_SIZE at hd
      simp only [List.length_cons, List.length_nil]
      omega
    · rw [if_neg hd]
      unfold STACK_TOP_SIZE at hd
      omega
  · intro s h
    unfold ensure_trace_capacity
    split
    · exact h
    · exact h
  · intro s h
    unfold Inv at *
    rw [finalize, padLoop_overflow, padLoop_depth]
    exact h

/-- C3 witness: the invariant facts at concrete inputs: a fresh stack, and
the scenario stack (depth 17, one overflow element) pushed, copied,
finalized and popped. -/
theorem c3_overflow_invariant_witness :
    (Stack.new [] 4).Inv ∧ (scenarioStack.shift_right 1).Inv ∧
    (scenarioStack.copy_state 0).Inv ∧ scenarioStack.finalize.Inv ∧
    (scenarioStack.shift_left 1).elim False (fun t => t.Inv) := by
  refine ⟨c3_overflow_invariant.1 [] 4,
    c3_overflow_invariant.2.2.2.2.1 scenarioStack 1 (by decide),
    c3_overflow_invariant.2.2.1 scenarioStack 0 (by decide),
    c3_overflow_invariant.2.2.2.2.2.2.2 scenarioStack (by decide), ?_⟩
  obtain ⟨t, ht, hI⟩ :=
    c3_overflow_invariant.2.2.2.1 scenarioStack 1 (by decide) (by decide) (by decide)
  rw [ht]
  exact hI

/-- C4 counterexample: the stack constructed with the single initial value
5 and trace length 2 has step 0 below the trace length, yet after finalize
the padded row 1 does not equal row 0 in every one of the 16 columns:
column 0 holds 5 at row 0 and 0 at row 1, because the padding loop copies
only columns below min(depth, 16) and the depth is 0. -/
theorem c4_counterexample :
    (Stack.new [5] 2).step < (Stack.new [5] 2).traceLength ∧
    ¬ (∀ i < 16, ∀ r < (Stack.new [5] 2).traceLength,
        (Stack.new [5] 2).step ≤ r →
        ((Stack.new [5] 2).finalize.trace.getD i []).getD r 0 =
          ((Stack.new [5] 2).finalize.trace.getD i []).getD
            (Stack.new [5] 2).step 0) := by
  decide

/-- C4 (amended): after finalize on a stack with a well-formed 16-column
trace and current step below the trace length, the current step equals
trace length - 1 and every row from the old current step through the last
row holds the old current-row value in every column below min(depth, 16);
columns at positions at least min(depth, 16) are not copied by the
padding. -/
theorem c4_finalize_pads (s : Stack) (hC : s.Cols)
    (hs : s.step < s.traceLength) :
    s.finalize.current_step = s.traceLength - 1 ∧
    ∀ i, i < min s.depth STACK_TOP_SIZE → ∀ r, s.step ≤ r →
      r < s.traceLength → (s.finalize.trace.getD i []).getD r 0 = s.get i := by
  constructor
  · exact finalize_step s hs
  · intro i hi r hr1 hr2
    have hb : s.step + (s.traceLength - 1 - s.step) < s.traceLength := by omega
    exact (padLoop_rows (s.traceLength - 1 - s.step) s hC hb).2 i hi r hr1
      (by omega)

/-- C4 witness: the padding facts at the concrete depth-16 stack. -/
theorem c4_finalize_pads_witness :
    depth16Stack.finalize.current_step = depth16Stack.traceLength - 1 ∧
    (depth16Stack.finalize.trace.getD 0 []).getD 1 0 = depth16Stack.get 0 :=
  ⟨(c4_finalize_pads depth16Stack (by decide) (by decide)).1,
   (c4_finalize_pads depth16Stack (by decide) (by decide)).2 0 (by decide) 1
     (by decide) (by decide)⟩

/-- C6: any sequence of matched shift_right/shift_left pairs at positive
positions succeeds and returns the depth, the overflow list, the step and
every current-row column value to their pre-sequence values; in
particular, a shift_right taking the depth from 16 to 17 moves the
pre-call column-15 value onto the overflow list, and the immediately
following shift_left taking the depth from 17 back to 16 writes that
exact value back into column 15 at the next row and leaves the overflow
list empty. -/
theorem c6_matched_roundtrip (s : Stack) (ps : List Nat)
    (hps : ∀ p ∈ ps, 1 ≤ p) :
    (∃ t, pairSeq ps s = some t ∧ t.step = s.step ∧ t.depth = s.depth ∧
      t.overflow = s.overflow ∧ ∀ j, t.get j = s.get j) ∧
    (s.depth = 16 → s.overflow = [] → s.Cols → s.step + 1 < s.traceLength →
      ∀ p, 1 ≤ p →
        (s.shift_right p).depth = 17 ∧
        (s.shift_right p).overflow = [s.get 15] ∧
        ∃ t, (s.shift_right p).shift_left p = some t ∧ t.depth = 16 ∧
          t.overflow = [] ∧ t.getNext 15 = s.get 15) := by
  constructor
  · exact pairSeq_roundtrip ps s hps
  · intro h16 hov hC hs p hp
    have hdeep : STACK_TOP_SIZE ≤ s.depth := by unfold STACK_TOP_SIZE; omega
    have hd : (s.shift_right p).depth = 17 := by rw [shift_right_depth, h16]
    have huo : (s.shift_right p).overflow = [s.get 15] := by
      rw [shift_right_overflow, if_pos hdeep, hov]
      rfl
    refine ⟨hd, huo, ?_⟩
    have hlast : (s.shift_right p).overflow.getLast? = some (s.get 15) := by
      rw [huo]
      rfl
    have hu_step : (s.shift_right p).step = s.step := shift_right_step s p
    have hu_TL : (s.shift_right p).traceLength = s.traceLength :=
      shift_right_traceLength s p
    have hu_C : (s.shift_right p).Cols := shift_right_Cols s p hC
    refine ⟨_, shift_left_eq_deep (s.shift_right p) p (s.get 15) (by omega)
      (by omega) (by omega) hlast, ?_, ?_, ?_⟩
    · show (s.shift_right p).depth - 1 = 16
      omega
    · show (s.shift_right p).overflow.dropLast = []
      rw [huo]
      rfl
    · show ((shiftLeftLoop (s.shift_right p) p (STACK_TOP_SIZE - p)).writeNext
        (STACK_TOP_SIZE - 1) (s.get 15)).getNext 15 = s.get 15
      have hb1 : (15 : Nat) < (shiftLeftLoop (s.shift_right p) p
          (STACK_TOP_SIZE - p)).trace.length := by
        rw [shiftLeftLoop_trace_length, hu_C.1]
        unfold STACK_TOP_SIZE
        omega
      have hb2 : (shiftLeftLoop (s.shift_right p) p (STACK_TOP_SIZE - p)).step + 1 <
          ((shiftLeftLoop (s.shift_right p) p (STACK_TOP_SIZE - p)).trace.getD
            15 []).length := by
        rw [shiftLeftLoop_step, shiftLeftLoop_colLen, hu_step,
          hu_C.2 15 (by unfold STACK_TOP_SIZE; omega), hu_TL]
        exact hs
      exact writeNext_getNext_eq _ 15 _ hb1 hb2

/-- C6 witness: one matched pair at position 1 on the concrete depth-16
stack, and the boundary-crossing push/pop facts on the same stack. -/
theorem c6_matched_roundtrip_witness :
    (pairSeq [1] depth16Stack).map
        (fun t => (t.step, t.depth, t.overflow, t.get 0)) =
      some (0, 16, [], (0 : BaseElement)) ∧
    ((depth16Stack.shift_right 1).shift_left 1).map
        (fun t => (t.depth, t.overflow, t.getNext 15)) =
      some (16, [], depth16Stack.get 15) := by
  constructor
  · obtain ⟨t, ht, h1, h2, h3, h4⟩ :=
      (c6_matched_roundtrip depth16Stack [1] (by decide)).1
    rw [ht]
    refine congrArg some ?_
    show (t.step, t.depth, t.overflow, t.get 0) = (0, 16, [], (0 : BaseElement))
    rw [h1, h2, h3, h4 0]
    decide
  · obtain ⟨hd, hov, t, ht, h1, h2, h3⟩ :=
      (c6_matched_roundtrip depth16Stack [1] (by decide)).2 (by decide)
        (by decide) (by decide) (by decide) 1 (by decide)
    rw [ht]
    refine congrArg some ?_
    show (t.depth, t.overflow, t.getNext 15) = (16, [], depth16Stack.get 15)
    rw [h1, h2, h3]

/-- C8: when the next row would fall outside the trace,
ensure_trace_capacity resizes every one of the 16 columns to exactly twice
the old trace length, keeping all rows below the old length unchanged and
filling all new rows with the field zero, while step, depth and overflow
are unchanged; when there is still room, the call changes nothing at
all. -/
theorem c8_ensure_trace_capacity (s : Stack) (hC : s.Cols) :
    (s.ensure_trace_capacity.step = s.step ∧
      s.ensure_trace_capacity.depth = s.depth ∧
      s.ensure_trace_capacity.overflow = s.overflow) ∧
    (s.traceLength ≤ s.step + 1 →
      ∀ i, i < 16 →
        (s.ensure_trace_capacity.trace.getD i []).length = s.traceLength * 2 ∧
        (∀ r, r < s.traceLength →
          (s.ensure_trace_capacity.trace.getD i []).getD r 0 =
            (s.trace.getD i []).getD r 0) ∧
        (∀ r, s.traceLength ≤ r →
          (s.ensure_trace_capacity.trace.getD i []).getD r 0 = 0)) ∧
    (s.step + 1 < s.traceLength → s.ensure_trace_capacity = s) := by
  refine ⟨?_, ?_, ?_⟩
  · unfold ensure_trace_capacity
    split
    · exact ⟨rfl, rfl, rfl⟩
    · exact ⟨rfl, rfl, rfl⟩
  · intro h i hi16
    have hcol : s.ensure_trace_capacity.trace.getD i [] =
        (s.trace.getD i []) ++ List.replicate s.traceLength (0 : BaseElement) := by
      unfold ensure_trace_capacity
      rw [if_pos h]
      simp only
      rw [getD_map_of_lt _ s.trace i [] [] (by rw [hC.1]; exact hi16)]
      exact vecResize_double _ s.traceLength (hC.2 i hi16)
    refine ⟨?_, fun r hr => ?_, fun r hr => ?_⟩
    · rw [hcol, List.length_append, List.length_replicate, hC.2 i hi16]
      omega
    · rw [hcol]
      exact getD_append_left _ _ _ _ (by rw [hC.2 i hi16]; omega)
    · rw [hcol]
      exact getD_append_replicate_zero _ _ _ (by rw [hC.2 i hi16]; omega)
  · intro h
    unfold ensure_trace_capacity
    rw [if_neg (by omega)]

/-- C8 witness: a full length-1 trace doubles to length 2 and a length-4
trace with room is left untouched. -/
theorem c8_ensure_trace_capacity_witness :
    ((Stack.new [] 1).ensure_trace_capacity.trace.getD 0 []).length =
        (Stack.new [] 1).traceLength * 2 ∧
    (Stack.new [] 4).ensure_trace_capacity = Stack.new [] 4 :=
  ⟨((c8_ensure_trace_capacity (Stack.new [] 1) (by decide)).2.1 (by decide) 0
      (by decide)).1,
   (c8_ensure_trace_capacity (Stack.new [] 4) (by decide)).2.2 (by decide)⟩

/-- C10: construction with more than 16 initial values succeeds with a
state identical to construction with just the first 16 values (the extras
are silently ignored), and each accepted value i below 16 is written into
row 0 of column i. -/
theorem c10_new_extra_values_ignored :
    (∀ (iv : List BaseElement) (n : Nat),
      Stack.new iv n = Stack.new (iv.take 16) n) ∧
    (∀ (iv : List BaseElement) (n : Nat), 0 < n → ∀ i, i < 16 →
      i < iv.length →
      ((Stack.new iv n).trace.getD i []).getD 0 0 = iv.getD i 0) := by
  constructor
  · intro iv n
    unfold new
    refine congrArg (fun tr => Stack.mk 0 tr [] 0) ?_
    refine List.map_congr_left (fun i hi => ?_)
    have hi16 : i < STACK_TOP_SIZE := List.mem_range.mp hi
    unfold STACK_TOP_SIZE at hi16
    simp only
    have hlen : (iv.take 16).length = min 16 iv.length := List.length_take 16 iv
    by_cases hlt : i < iv.length
    · rw [if_pos hlt, if_pos (by rw [hlen]; omega),
        getD_take iv 16 i 0 (by omega)]
    · rw [if_neg hlt, if_neg (by rw [hlen]; omega)]
  · intro iv n hn i hi16 hilen
    rw [new_col iv n i (by unfold STACK_TOP_SIZE; omega), if_pos hilen,
      getD_set_eq, if_pos (by rw [List.length_replicate]; omega)]

/-- C10 witness: seventeen initial values behave exactly like their first
sixteen, and the first value lands in row 0 of column 0. -/
theorem c10_new_extra_values_ignored_witness :
    Stack.new seventeenValues 2 = Stack.new (seventeenValues.take 16) 2 ∧
    ((Stack.new seventeenValues 2).trace.getD 0 []).getD 0 0 =
      seventeenValues.getD 0 0 :=
  ⟨c10_new_extra_values_ignored.1 seventeenValues 2,
   c10_new_extra_values_ignored.2 seventeenValues 2 (by decide) 0 (by decide)
     (by decide)⟩

end Stack
